import Mathlib

/-! Verification of the outline extraction engine: a shallow embedding of the
tree-sitter based symbol outline extractor (Go source, package
pkg/outline/languages and internal/detector) together with proofs about its
specified behaviour. Go strings are modelled as lists of characters. A CST
node is modelled with exactly the data the engine reads through the node
accessor API: kind tag, source text slice (getNodeText slices the source
buffer by the node byte range, so the slice is stored on the node), the
zero-indexed start row, the full child list (Child), the named child list
(NamedChild), the field-name map (ChildByFieldName), parent presence
(Parent being nil or not), and the chain of preceding named siblings in
nearest-first order as delivered by repeated PrevNamedSibling calls. -/

namespace OutlineVerif

/-- Character list of a string literal; the working representation of Go strings. -/
def str (s : String) : List Char := s.data

/-- Whitespace test agreeing with unicode.IsSpace on the Latin-1 range, the
character class stripped by strings.TrimSpace. -/
def isGoSpace (c : Char) : Bool :=
  c = ' ' || c = '\t' || c = '\n' || c = '\r' ||
  c = Char.ofNat 11 || c = Char.ofNat 12 || c = Char.ofNat 133 || c = Char.ofNat 160

/-- Embedding of strings.TrimSpace: strip whitespace from both ends. -/
def goTrimSpace (s : List Char) : List Char :=
  ((s.dropWhile isGoSpace).reverse.dropWhile isGoSpace).reverse

/-- Helper for goContains, scanning successive suffixes of the subject. -/
def containsAux (pat : List Char) : List Char → Bool
  | [] => pat.isEmpty
  | c :: t => pat.isPrefixOf (c :: t) || containsAux pat t

/-- Embedding of strings.Contains s pat. -/
def goContains (s pat : List Char) : Bool := containsAux pat s

/-- Embedding of strings.HasPrefix s pre. -/
def goHasPrefix (s pre : List Char) : Bool := pre.isPrefixOf s

/-- Embedding of strings.Split s (String.singleton sep): split at every
occurrence of the separator character; always returns at least one piece. -/
def splitChar (sep : Char) : List Char → List (List Char)
  | [] => [[]]
  | c :: t =>
    let r := splitChar sep t
    if c = sep then [] :: r
    else
      match r with
      | [] => [[c]]
      | h :: rt => (c :: h) :: rt

/-- Join a list of lines with newline separators (used to state the
documentation aggregation property). -/
def joinNl : List (List Char) → List Char
  | [] => []
  | [s] => s
  | s :: t => s ++ '\n' :: joinNl t

/-- Decimal digit characters of a number, as fmt prints a %d verb. -/
def natChars (n : Nat) : List Char := Nat.toDigits 10 n

mutual
/-- Model of a tree-sitter CST node as seen by the engine. -/
inductive Node : Type where
  | mk (kind : List Char) (text : List Char) (row : Nat)
      (allChildren : NodeList) (namedChildren : NodeList)
      (fields : FieldList) (hasParent : Bool) (prevNamed : NodeList) : Node

/-- Child lists of a node. -/
inductive NodeList : Type where
  | nil : NodeList
  | cons (hd : Node) (tl : NodeList) : NodeList

/-- Field-name keyed children of a node. -/
inductive FieldList : Type where
  | fnil : FieldList
  | fcons (fname : List Char) (fnode : Node) (tl : FieldList) : FieldList
end

def Node.kind : Node → List Char
  | .mk k _ _ _ _ _ _ _ => k

def Node.text : Node → List Char
  | .mk _ t _ _ _ _ _ _ => t

def Node.row : Node → Nat
  | .mk _ _ r _ _ _ _ _ => r

def Node.allChildren : Node → NodeList
  | .mk _ _ _ a _ _ _ _ => a

def Node.namedChildren : Node → NodeList
  | .mk _ _ _ _ n _ _ _ => n

def Node.fields : Node → FieldList
  | .mk _ _ _ _ _ f _ _ => f

def Node.hasParent : Node → Bool
  | .mk _ _ _ _ _ _ p _ => p

def Node.prevNamed : Node → NodeList
  | .mk _ _ _ _ _ _ _ s => s

def NodeList.toList : NodeList → List Node
  | .nil => []
  | .cons h t => h :: t.toList

def NodeList.ofList : List Node → NodeList
  | [] => .nil
  | h :: t => .cons h (ofList t)

def NodeList.getIdx : NodeList → Nat → Option Node
  | .nil, _ => none
  | .cons h _, 0 => some h
  | .cons _ t, i + 1 => t.getIdx i

def FieldList.lookupField : FieldList → List Char → Option Node
  | .fnil, _ => none
  | .fcons name n t, f => if name = f then some n else t.lookupField f

def FieldList.ofList : List (List Char × Node) → FieldList
  | [] => .fnil
  | (f, n) :: t => .fcons f n (ofList t)

/-- Embedding of node.ChildByFieldName. -/
def Node.childByFieldName (n : Node) (f : List Char) : Option Node :=
  n.fields.lookupField f

/-- Embedding of node.Child(i), the full (named and anonymous) child accessor. -/
def Node.child (n : Node) (i : Nat) : Option Node :=
  n.allChildren.getIdx i

/-- Convenient node builder for concrete test trees. -/
def node (kind text : String) (row : Nat) (subs named : List Node)
    (fields : List (String × Node)) (hasParent : Bool) (prev : List Node) : Node :=
  .mk (str kind) (str text) row (.ofList subs) (.ofList named)
    (FieldList.ofList (fields.map (fun p => (str p.1, p.2)))) hasParent (.ofList prev)

/-- Embedding of getNodeText: the engine slices the source buffer by the node
byte range; the model stores that slice on the node. -/
def getNodeText (n : Node) : List Char := n.text

/-- Embedding of getNodeLineNumber: the 1-indexed line of a node start, from
the zero-indexed StartPosition row. -/
def getNodeLineNumber (n : Node) : Nat := n.row + 1

/-- Backward walk of findDocComment over the chain of preceding named
siblings, nearest sibling first, accumulating trimmed comment text. -/
def docCommentLoop : NodeList → List Char → List Char
  | .nil, acc => acc
  | .cons c rest, acc =>
    if goContains c.kind (str "comment") then
      let t := goTrimSpace (getNodeText c)
      docCommentLoop rest (if acc = [] then t else t ++ '\n' :: acc)
    else acc

/-- Embedding of findDocComment: aggregate the contiguous run of comment-kind
named siblings immediately preceding a node, returning them top-to-bottom. -/
def findDocComment (n : Node) : List Char :=
  if n.hasParent then docCommentLoop n.prevNamed [] else []

/-! Go adapter (pkg/outline/languages/go.go). -/

/-- Doc-comment emission shared by the Go declaration processors: one
line-comment per documentation line, each re-prefixed and trimmed. -/
def goDocLines (doc indent : List Char) : List Char :=
  if doc = [] then []
  else ((splitChar '\n' doc).map
    (fun line => indent ++ str "// " ++ goTrimSpace line ++ str "\n")).flatten

/-- Loop body of processPackage: the first package_identifier named child
produces the package line. -/
def processPackageLoop : NodeList → List Char → List Char
  | .nil, _ => []
  | .cons c t, indent =>
    if c.kind = str "package_identifier" then
      indent ++ str "package " ++ getNodeText c ++ str "\n\n"
    else processPackageLoop t indent

/-- Embedding of processPackage. -/
def processPackage (n : Node) (indent : List Char) : List Char :=
  processPackageLoop n.namedChildren indent

/-- Embedding of processImport. -/
def processImport (n : Node) (indent : List Char) : List Char :=
  let importText := getNodeText n
  (indent ++ importText ++ str "\n") ++
  (if goContains importText (str "(") then str "\n" else [])

/-- One iteration of the processConstAndVar spec loop. -/
def constVarItem (indent : List Char) (child : Node) : List Char :=
  if child.kind = str "const_spec" ∨ child.kind = str "var_spec" then
    match child.childByFieldName (str "name") with
    | some nameNode =>
      let name := getNodeText nameNode
      let typeText :=
        match child.childByFieldName (str "type") with
        | some t => ' ' :: getNodeText t
        | none => []
      let valueText :=
        match child.childByFieldName (str "value") with
        | some v => str " = " ++ getNodeText v
        | none => []
      indent ++ '\t' :: (name ++ typeText ++ valueText) ++ str "\n"
    | none => []
  else []

/-- The spec loop of processConstAndVar over the named children. -/
def constVarItems : NodeList → List Char → List Char
  | .nil, _ => []
  | .cons c t, indent => constVarItem indent c ++ constVarItems t indent

/-- Whether the processConstAndVar loop sets its hasItems flag: some
const_spec or var_spec child carries a name field. -/
def goHasItems (n : Node) : Bool :=
  n.namedChildren.toList.any (fun c =>
    (c.kind == str "const_spec" || c.kind == str "var_spec") &&
    (c.childByFieldName (str "name")).isSome)

/-- The declType computation of processConstAndVar: const when the node is a
const_declaration, var otherwise. -/
def declTypeText (n : Node) : List Char :=
  if n.kind = str "const_declaration" then str "const" else str "var"

/-- Embedding of processConstAndVar. -/
def processConstAndVar (n : Node) (indent : List Char) : List Char :=
  let declType := declTypeText n
  let doc := findDocComment n
  goDocLines doc indent ++
  (indent ++ declType ++ str " (\n") ++
  constVarItems n.namedChildren indent ++
  (if goHasItems n then indent ++ str ")\n\n" else [])

/-- One method_spec line of processInterface. -/
def interfaceMethod (indent : List Char) (m : Node) : List Char :=
  if m.kind = str "method_spec" then
    match m.childByFieldName (str "name") with
    | some nameNode =>
      let methodName := getNodeText nameNode
      let methodParams :=
        match m.childByFieldName (str "parameters") with
        | some p => getNodeText p
        | none => []
      let methodResult :=
        match m.childByFieldName (str "result") with
        | some r => ' ' :: getNodeText r
        | none => []
      indent ++ '\t' :: (methodName ++ methodParams ++ methodResult) ++ str "\n"
    | none => []
  else []

/-- The method_spec loop of processInterface. -/
def interfaceMethods : NodeList → List Char → List Char
  | .nil, _ => []
  | .cons m t, indent => interfaceMethod indent m ++ interfaceMethods t indent

/-- Embedding of processInterface (its closing brace is written by the
caller, processType). -/
def processInterface (indent name : List Char) (typeNode declNode : Node) : List Char :=
  (indent ++ str "type " ++ name ++ str " interface \x7b // line " ++
    natChars (getNodeLineNumber declNode) ++ str "\n") ++
  (match typeNode.namedChildren with
   | .nil => []
   | .cons methodsNode _ =>
     if methodsNode.kind = str "method_spec_list" then
       interfaceMethods methodsNode.namedChildren indent
     else [])

/-- One field_declaration line of processStruct. -/
def structField (indent : List Char) (f : Node) : List Char :=
  if f.kind = str "field_declaration" then
    match f.childByFieldName (str "type") with
    | none => []
    | some fieldTypeNode =>
      match f.childByFieldName (str "name") with
      | some fieldNameNode =>
        indent ++ '\t' :: (getNodeText fieldNameNode ++ ' ' :: getNodeText fieldTypeNode) ++ str "\n"
      | none =>
        indent ++ '\t' :: getNodeText fieldTypeNode ++ str "\n"
  else []

/-- The field loop of processStruct. -/
def structFields : NodeList → List Char → List Char
  | .nil, _ => []
  | .cons f t, indent => structField indent f ++ structFields t indent

/-- Embedding of processStruct; the deferred closing brace runs on every
path, so it is appended unconditionally. -/
def processStruct (indent name : List Char) (typeNode declNode : Node) : List Char :=
  (indent ++ str "type " ++ name ++ str " struct \x7b // line " ++
    natChars (getNodeLineNumber declNode) ++ str "\n") ++
  (match typeNode.namedChildren with
   | .nil => []
   | .cons fieldsNode _ =>
     if fieldsNode.kind = str "field_declaration_list" then
       structFields fieldsNode.namedChildren indent
     else []) ++
  (indent ++ str "\x7d\n\n")

/-- Embedding of processType: dispatches on Child(1) being a type_spec and on
the spec's type field being a struct, interface, or other type. -/
def processType (n : Node) (indent : List Char) : List Char :=
  match n.child 1 with
  | none => []
  | some specNode =>
    if specNode.kind ≠ str "type_spec" then []
    else
      match specNode.childByFieldName (str "name") with
      | none => []
      | some nameNode =>
        let name := getNodeText nameNode
        let typeNodeOpt := specNode.childByFieldName (str "type")
        let typeText :=
          match typeNodeOpt with
          | some t => getNodeText t
          | none => []
        let docOut := goDocLines (findDocComment n) indent
        match typeNodeOpt with
        | none => docOut
        | some typeNode =>
          if typeNode.kind = str "struct_type" then
            docOut ++ processStruct indent name typeNode n
          else if typeNode.kind = str "interface_type" then
            docOut ++ processInterface indent name typeNode n ++ (indent ++ str "\x7d\n\n")
          else
            docOut ++ indent ++ str "type " ++ name ++ ' ' :: typeText ++
              str " // line " ++ natChars (getNodeLineNumber n) ++ str "\n\n"

/-- Embedding of processMethod. -/
def processMethod (n : Node) (indent : List Char) : List Char :=
  match n.childByFieldName (str "name") with
  | none => []
  | some nameNode =>
    let name := getNodeText nameNode
    let receiverText :=
      match n.childByFieldName (str "receiver") with
      | some r => getNodeText r
      | none => []
    let paramText :=
      match n.childByFieldName (str "parameters") with
      | some p => getNodeText p
      | none => []
    let resultText :=
      match n.childByFieldName (str "result") with
      | some r => ' ' :: getNodeText r
      | none => []
    goDocLines (findDocComment n) indent ++
    (indent ++ str "func " ++ receiverText ++ ' ' :: (name ++ paramText ++ resultText) ++
      str " \x7b //... \x7d // line " ++ natChars (getNodeLineNumber n) ++ str "\n\n")

/-- Embedding of processFunction. -/
def processFunction (n : Node) (indent : List Char) : List Char :=
  match n.childByFieldName (str "name") with
  | none => []
  | some nameNode =>
    let name := getNodeText nameNode
    let paramText :=
      match n.childByFieldName (str "parameters") with
      | some p => getNodeText p
      | none => []
    let resultText :=
      match n.childByFieldName (str "result") with
      | some r => ' ' :: getNodeText r
      | none => []
    goDocLines (findDocComment n) indent ++
    (indent ++ str "func " ++ name ++ paramText ++ resultText ++
      str " \x7b //... \x7d // line " ++ natChars (getNodeLineNumber n) ++ str "\n\n")

mutual
/-- Embedding of the Go adapter dispatch processNode: recursion happens only
under source_file; a kind absent from the table produces no output. -/
def processNode : Node → Nat → List Char
  | n@(.mk kind _ _ _ named _ _ _), indentLevel =>
    let indent := List.replicate indentLevel '\t'
    if kind = str "source_file" then processChildren named indentLevel
    else if kind = str "package_clause" then processPackage n indent
    else if kind = str "import_declaration" then processImport n indent
    else if kind = str "function_declaration" then processFunction n indent
    else if kind = str "method_declaration" then processMethod n indent
    else if kind = str "type_declaration" then processType n indent
    else if kind = str "const_declaration" ∨ kind = str "var_declaration" then
      processConstAndVar n indent
    else []

/-- The named-children loop of the source_file case of processNode. -/
def processChildren : NodeList → Nat → List Char
  | .nil, _ => []
  | .cons c t, lvl => processNode c lvl ++ processChildren t lvl
end

/-- Embedding of ExtractGoOutline. -/
def ExtractGoOutline (root : Node) : List Char := processNode root 0

/-! Python adapter (pkg/outline/languages/python.go). -/

/-- Quote characters stripped from Python docstrings by strings.Trim. -/
def isQuoteChar (c : Char) : Bool := c = '"' || c = '\''

/-- Embedding of strings.Trim s "\x22'". -/
def goTrimQuotes (s : List Char) : List Char :=
  ((s.dropWhile isQuoteChar).reverse.dropWhile isQuoteChar).reverse

/-- Python docstring discovery: the first named child of the body being an
expression_statement over a string yields the trimmed docstring. -/
def pyDocstring (bodyNodeOpt : Option Node) : Option (List Char) :=
  match bodyNodeOpt with
  | none => none
  | some bodyNode =>
    match bodyNode.namedChildren with
    | .nil => none
    | .cons firstChild _ =>
      if firstChild.kind = str "expression_statement" then
        match firstChild.namedChildren with
        | .nil => none
        | .cons exprChild _ =>
          if exprChild.kind = str "string" then
            some (goTrimQuotes (getNodeText exprChild))
          else none
      else none

/-- Python indentation: four spaces per nesting level. -/
def pyIndent (lvl : Nat) : List Char := List.replicate (lvl * 4) ' '

/-- The function_definition case of the Python processNode closure. -/
def pyFunctionCase (n : Node) (indent : List Char) : List Char :=
  match n.childByFieldName (str "name") with
  | none => []
  | some nameNode =>
    let name := getNodeText nameNode
    let isPublic := !(goHasPrefix name (str "_"))
    if !isPublic then []
    else
      let paramText :=
        match n.childByFieldName (str "parameters") with
        | some p => getNodeText p
        | none => []
      let returnText :=
        match n.childByFieldName (str "return_type") with
        | some r => str " -> " ++ getNodeText r
        | none => []
      let doc := (pyDocstring (n.childByFieldName (str "body"))).getD []
      (indent ++ str "def " ++ name ++ paramText ++ returnText ++ str ": # line " ++
        natChars (getNodeLineNumber n)) ++
      (if doc ≠ [] then str " \"\"\"" ++ doc ++ str "\"\"\"" else []) ++
      str "\n" ++
      (indent ++ str "    ...\n\n")

/-- One body-child iteration of the Python class method loop. -/
def pyMethodItem (indent : List Char) (child : Node) : List Char :=
  if child.kind = str "function_definition" then
    match child.childByFieldName (str "name") with
    | none => []
    | some methodNameNode =>
      let methodName := getNodeText methodNameNode
      if goHasPrefix methodName (str "_") then []
      else
        let paramText :=
          match child.childByFieldName (str "parameters") with
          | some p => getNodeText p
          | none => []
        let returnText :=
          match child.childByFieldName (str "return_type") with
          | some r => str " -> " ++ getNodeText r
          | none => []
        let methodDoc := (pyDocstring (child.childByFieldName (str "body"))).getD []
        (indent ++ str "    def " ++ methodName ++ paramText ++ returnText ++ str ": # line " ++
          natChars (getNodeLineNumber child)) ++
        (if methodDoc ≠ [] then str " \"\"\"" ++ methodDoc ++ str "\"\"\"" else []) ++
        str "\n" ++
        (indent ++ str "        ...\n\n")
  else []

/-- The class body method loop of the Python adapter. -/
def pyMethods : NodeList → List Char → List Char
  | .nil, _ => []
  | .cons c t, indent => pyMethodItem indent c ++ pyMethods t indent

/-- Whether a body child makes the Python class loop set its hasMethods flag:
a function_definition with a name field not starting with an underscore. -/
def pyHasMethod (child : Node) : Bool :=
  child.kind == str "function_definition" &&
  (match child.childByFieldName (str "name") with
   | some nm => !(goHasPrefix (getNodeText nm) (str "_"))
   | none => false)

/-- The class_definition case of the Python processNode closure. -/
def pyClassCase (n : Node) (indent : List Char) : List Char :=
  match n.childByFieldName (str "name") with
  | none => []
  | some nameNode =>
    let name := getNodeText nameNode
    let isPublic := !(goHasPrefix name (str "_"))
    if !isPublic then []
    else
      let baseText :=
        match n.childByFieldName (str "base_clause") with
        | some b => getNodeText b
        | none => []
      let header := indent ++ str "class " ++ name ++ baseText ++ str ": # line " ++
        natChars (getNodeLineNumber n) ++ str "\n"
      let bodyOpt := n.childByFieldName (str "body")
      let docLine :=
        match pyDocstring bodyOpt with
        | some doc => indent ++ str "    \"\"\"" ++ doc ++ str "\"\"\"\n"
        | none => []
      let methodsOut :=
        match bodyOpt with
        | some bodyNode => pyMethods bodyNode.namedChildren indent
        | none => []
      let hasMethods :=
        match bodyOpt with
        | some bodyNode => bodyNode.namedChildren.toList.any pyHasMethod
        | none => false
      header ++ docLine ++ methodsOut ++
      (if !hasMethods then indent ++ str "    pass\n\n" else str "\n")

mutual
/-- Embedding of the Python processNode closure: recursion happens only under
module; a kind absent from the table produces no output. -/
def pyProcessNode : Node → Nat → List Char
  | n@(.mk kind _ _ _ named _ _ _), indentLevel =>
    let indent := pyIndent indentLevel
    if kind = str "module" then pyProcessChildren named indentLevel
    else if kind = str "import_statement" ∨ kind = str "import_from_statement" then
      getNodeText n ++ str "\n"
    else if kind = str "function_definition" then pyFunctionCase n indent
    else if kind = str "class_definition" then pyClassCase n indent
    else []

/-- The named-children loop of the module case of the Python processNode. -/
def pyProcessChildren : NodeList → Nat → List Char
  | .nil, _ => []
  | .cons c t, lvl => pyProcessNode c lvl ++ pyProcessChildren t lvl
end

/-- Embedding of ExtractPythonOutline. -/
def ExtractPythonOutline (root : Node) : List Char := pyProcessNode root 0

/-! C and C++ adapter (pkg/outline/languages/c.go). -/

/-- Doc-comment emission shared by the C declaration processors: lines that
already carry comment punctuation are kept, others are re-prefixed. -/
def cDocLines (doc indent : List Char) : List Char :=
  if doc = [] then []
  else ((splitChar '\n' doc).map (fun line =>
    if goHasPrefix line (str "//") || goHasPrefix line (str "/*") || goHasPrefix line (str "*") then
      indent ++ goTrimSpace line ++ str "\n"
    else
      indent ++ str "// " ++ goTrimSpace line ++ str "\n")).flatten

/-- Embedding of strings.ReplaceAll for a one-character pattern. -/
def replaceChar (old new : Char) (s : List Char) : List Char :=
  s.map (fun c => if c = old then new else c)

/-- Embedding of one strings.ReplaceAll pass replacing each non-overlapping
two-space occurrence, left to right, with one space. -/
def replaceDoubleSpace : List Char → List Char
  | [] => []
  | [c] => [c]
  | c1 :: c2 :: t =>
    if c1 = ' ' ∧ c2 = ' ' then ' ' :: replaceDoubleSpace t
    else c1 :: replaceDoubleSpace (c2 :: t)

/-- The space-collapsing loop of extractFunctionSignature, fuelled: each pass
strictly shortens the string, so the string length bounds the pass count and
the fuelled form coincides with the until-fixpoint loop of the source. -/
def collapseSpacesAux : Nat → List Char → List Char
  | 0, s => s
  | fuel + 1, s =>
    if goContains s (str "  ") then collapseSpacesAux fuel (replaceDoubleSpace s)
    else s

/-- Embedding of the for strings.Contains(signature, sp sp) loop. -/
def collapseSpaces (s : List Char) : List Char := collapseSpacesAux s.length s

/-- Embedding of strings.Join parts (String.singleton sp). -/
def joinSpace : List (List Char) → List Char
  | [] => []
  | [s] => s
  | s :: t => s ++ ' ' :: joinSpace t

/-- Embedding of extractFunctionSignature: join return type and declarator
slices, flatten newlines and tabs, collapse space runs, trim the ends. -/
def extractFunctionSignature (n : Node) : List Char :=
  let parts : List (List Char) :=
    (match n.childByFieldName (str "type") with
     | some typeNode =>
       let returnType := getNodeText typeNode
       if !goContains returnType (str "(") then [returnType] else []
     | none => []) ++
    (match n.childByFieldName (str "declarator") with
     | some declaratorNode => [getNodeText declaratorNode]
     | none => [])
  let signature := joinSpace parts
  goTrimSpace (collapseSpaces (replaceChar '\t' ' ' (replaceChar '\n' ' ' signature)))

mutual
/-- Embedding of extractFunctionName: chase the declarator field through
function and pointer declarators down to an identifier. -/
def extractFunctionName : Node → List Char
  | .mk kind text _ _ _ fields _ _ =>
    if kind = str "function_declarator" then extractFunctionNameField fields
    else if kind = str "identifier" then text
    else if kind = str "pointer_declarator" then extractFunctionNameField fields
    else []

/-- Field lookup step of extractFunctionName (ChildByFieldName declarator
followed by the recursive call when present). -/
def extractFunctionNameField : FieldList → List Char
  | .fnil => []
  | .fcons fname fnode t =>
    if fname = str "declarator" then extractFunctionName fnode
    else extractFunctionNameField t
end

/-- Embedding of processCDefine. -/
def processCDefine (n : Node) (indent : List Char) : List Char :=
  indent ++ getNodeText n ++ str " // line " ++ natChars (getNodeLineNumber n) ++ str "\n"

/-- Embedding of processCInclude. -/
def processCInclude (n : Node) (indent : List Char) : List Char :=
  indent ++ getNodeText n ++ str "\n"

/-- Embedding of processCFunction. -/
def processCFunction (n : Node) (indent : List Char) : List Char :=
  match n.childByFieldName (str "declarator") with
  | none => []
  | some declaratorNode =>
    let functionName := extractFunctionName declaratorNode
    if functionName = [] then []
    else
      cDocLines (findDocComment n) indent ++
      (indent ++ extractFunctionSignature n ++ str " \x7b //... \x7d // line " ++
        natChars (getNodeLineNumber n) ++ str "\n\n")

/-- Embedding of processCDeclaration. -/
def processCDeclaration (n : Node) (indent : List Char) : List Char :=
  let declarationText := getNodeText n
  if goContains declarationText (str ";") && !goContains declarationText (str "\x7b") then
    indent ++ goTrimSpace declarationText ++ str " // line " ++
      natChars (getNodeLineNumber n) ++ str "\n"
  else []

/-- The member loop of processCStructBody. -/
def cStructBodyItems : NodeList → List Char → List Char
  | .nil, _ => []
  | .cons child t, indent =>
    (if child.kind = str "field_declaration" then
       indent ++ goTrimSpace (getNodeText child) ++ str "\n"
     else if child.kind = str "enumerator" then
       indent ++ goTrimSpace (getNodeText child) ++ str "\n"
     else []) ++ cStructBodyItems t indent

/-- Embedding of processCStructBody. -/
def processCStructBody (bodyNode : Node) (indentLevel : Nat) : List Char :=
  cStructBodyItems bodyNode.namedChildren (List.replicate indentLevel '\t')

/-- Embedding of processCStructUnionEnum. -/
def processCStructUnionEnum (n : Node) (indent : List Char) : List Char :=
  let structType :=
    if n.kind = str "struct_specifier" then str "struct"
    else if n.kind = str "union_specifier" then str "union"
    else if n.kind = str "enum_specifier" then str "enum"
    else []
  let name :=
    match n.childByFieldName (str "name") with
    | some nameNode => getNodeText nameNode
    | none => []
  cDocLines (findDocComment n) indent ++
  (if name ≠ [] then
     indent ++ structType ++ ' ' :: name ++ str " \x7b // line " ++
       natChars (getNodeLineNumber n) ++ str "\n"
   else
     indent ++ structType ++ str " \x7b // line " ++
       natChars (getNodeLineNumber n) ++ str "\n") ++
  (match n.childByFieldName (str "body") with
   | some bodyNode => processCStructBody bodyNode 1
   | none => []) ++
  (indent ++ str "\x7d\n\n")

/-- Embedding of processCTypedef. -/
def processCTypedef (n : Node) (indent : List Char) : List Char :=
  indent ++ goTrimSpace (getNodeText n) ++ str " // line " ++
    natChars (getNodeLineNumber n) ++ str "\n\n"

/-- Embedding of strings.TrimSuffix. -/
def goTrimSuffix (s suf : List Char) : List Char :=
  if suf.isSuffixOf s then s.take (s.length - suf.length) else s

/-- One member of processCClassBody. The declaration case distinguishes
method from field declarations in the source but renders both identically. -/
def cClassBodyItem (indent : List Char) (child : Node) : List Char :=
  if child.kind = str "access_specifier" then
    indent ++ goTrimSuffix (getNodeText child) (str ":") ++ str ":\n"
  else if child.kind = str "function_definition" then
    indent ++ '\t' :: extractFunctionSignature child ++ str " \x7b //... \x7d // line " ++
      natChars (getNodeLineNumber child) ++ str "\n"
  else if child.kind = str "declaration" then
    let declText := getNodeText child
    if goContains declText (str "(") && goContains declText (str ")") then
      indent ++ '\t' :: goTrimSpace declText ++ str " // line " ++
        natChars (getNodeLineNumber child) ++ str "\n"
    else
      indent ++ '\t' :: goTrimSpace declText ++ str " // line " ++
        natChars (getNodeLineNumber child) ++ str "\n"
  else if child.kind = str "constructor_declaration" ∨ child.kind = str "destructor_declaration" then
    indent ++ '\t' :: extractFunctionSignature child ++ str " \x7b //... \x7d // line " ++
      natChars (getNodeLineNumber child) ++ str "\n"
  else []

/-- The member loop of processCClassBody. -/
def cClassBodyItems : NodeList → List Char → List Char
  | .nil, _ => []
  | .cons c t, indent => cClassBodyItem indent c ++ cClassBodyItems t indent

/-- Embedding of processCClassBody. -/
def processCClassBody (bodyNode : Node) (indent : List Char) : List Char :=
  cClassBodyItems bodyNode.namedChildren indent

/-- The base_class_clause scan of processCClass: first matching named child. -/
def cBaseClause : NodeList → List Char
  | .nil => []
  | .cons child t =>
    if child.kind = str "base_class_clause" then str " : " ++ getNodeText child
    else cBaseClause t

/-- Embedding of processCClass. -/
def processCClass (n : Node) (indent : List Char) : List Char :=
  let name :=
    match n.childByFieldName (str "name") with
    | some nameNode => getNodeText nameNode
    | none => []
  cDocLines (findDocComment n) indent ++
  (indent ++ str "class " ++ name ++ cBaseClause n.namedChildren ++ str " \x7b // line " ++
    natChars (getNodeLineNumber n) ++ str "\n") ++
  (match n.childByFieldName (str "body") with
   | some bodyNode => processCClassBody bodyNode (List.replicate 1 '\t')
   | none => []) ++
  (indent ++ str "\x7d\n\n")

/-- Header portion of processCNamespace (everything before the body walk). -/
def cNamespaceHeader (n : Node) (indent : List Char) : List Char :=
  let name :=
    match n.childByFieldName (str "name") with
    | some nameNode => getNodeText nameNode
    | none => []
  cDocLines (findDocComment n) indent ++
  (if name ≠ [] then
     indent ++ str "namespace " ++ name ++ str " \x7b // line " ++
       natChars (getNodeLineNumber n) ++ str "\n"
   else
     indent ++ str "namespace \x7b // line " ++ natChars (getNodeLineNumber n) ++ str "\n")

/-- Header portion of processCTemplateDeclaration: documentation plus the
first line of the template text. -/
def cTemplateHeader (n : Node) (indent : List Char) : List Char :=
  let lines := splitChar '\n' (getNodeText n)
  cDocLines (findDocComment n) indent ++
  (match lines with
   | [] => []
   | l0 :: _ =>
     indent ++ goTrimSpace l0 ++ str " // line " ++ natChars (getNodeLineNumber n) ++ str "\n")

mutual
/-- Embedding of the C adapter dispatch processCNode: a kind absent from the
table falls to the default branch, which recurses into the named children. -/
def processCNode : Node → Nat → List Char
  | n@(.mk kind _ _ _ named fields _ _), indentLevel =>
    let indent := List.replicate indentLevel '\t'
    if kind = str "translation_unit" then cProcessChildren named indentLevel
    else if kind = str "preproc_def" ∨ kind = str "preproc_function_def" then
      processCDefine n indent
    else if kind = str "preproc_include" then processCInclude n indent
    else if kind = str "function_definition" then processCFunction n indent
    else if kind = str "declaration" then processCDeclaration n indent
    else if kind = str "struct_specifier" ∨ kind = str "union_specifier" ∨
        kind = str "enum_specifier" then
      processCStructUnionEnum n indent
    else if kind = str "type_definition" then processCTypedef n indent
    else if kind = str "namespace_definition" then
      cNamespaceHeader n indent ++ cNamespaceBody fields (indentLevel + 1) ++
        (indent ++ str "\x7d\n\n")
    else if kind = str "class_specifier" then processCClass n indent
    else if kind = str "template_declaration" then
      cTemplateHeader n indent ++ cTemplateChildren named indentLevel
    else cProcessChildren named indentLevel

/-- The named-children loop shared by the translation_unit case and the
default case of processCNode. -/
def cProcessChildren : NodeList → Nat → List Char
  | .nil, _ => []
  | .cons c t, lvl => processCNode c lvl ++ cProcessChildren t lvl

/-- Body walk of processCNamespace: the body field child of the namespace has
its named children processed one nesting level deeper. -/
def cNamespaceBody : FieldList → Nat → List Char
  | .fnil, _ => []
  | .fcons fname (.mk _ _ _ _ bodyNamed _ _ _) t, lvl =>
    if fname = str "body" then cProcessChildren bodyNamed lvl
    else cNamespaceBody t lvl

/-- Child walk of processCTemplateDeclaration: every named child except the
template_parameter_list is processed at the same nesting level. -/
def cTemplateChildren : NodeList → Nat → List Char
  | .nil, _ => []
  | .cons c t, lvl =>
    (if c.kind ≠ str "template_parameter_list" then processCNode c lvl else []) ++
    cTemplateChildren t lvl
end

/-- Embedding of ExtractCOutline. -/
def ExtractCOutline (root : Node) : List Char := processCNode root 0

/-- Embedding of ExtractCppOutline (same traversal as C with the C++ node
kinds handled in the shared dispatch). -/
def ExtractCppOutline (root : Node) : List Char := processCNode root 0

/-! Outline serializer entry point (pkg/outline/outline.go) and the language
detector (internal/detector/detector.go). -/

/-- The per-language extraction functions the ExtractOutline dispatch calls.
The Go and Python adapters embedded above instantiate two of the slots; the
remaining adapters enter only through being called, so the dispatch facts
below hold for every instantiation. -/
structure Adapters where
  goAdapter : Node → List Char
  javaAdapter : Node → List Char
  jsAdapter : Node → List Char
  swiftAdapter : Node → List Char
  tsAdapter : Node → List Char
  pyAdapter : Node → List Char

/-- Parser selected by createParserForLanguage. -/
inductive ParserLang : Type where
  | go | java | javascript | swift | typescript | tsx | python
deriving DecidableEq

/-- Embedding of createParserForLanguage: the parser registry. A SetLanguage
failure for a bundled grammar cannot occur (version mismatch only), so the
success path is modelled as returning the selected parser. -/
def createParserForLanguage (language : List Char) : Except (List Char) ParserLang :=
  if language = str "go" then .ok .go
  else if language = str "java" then .ok .java
  else if language = str "javascript" then .ok .javascript
  else if language = str "swift" then .ok .swift
  else if language = str "typescript" then .ok .typescript
  else if language = str "tsx" then .ok .tsx
  else if language = str "python" then .ok .python
  else .error (str "unsupported language: " ++ language)

/-- Embedding of ExtractOutline: create a parser, parse (the resulting CST
root is the root argument), and dispatch on the language tag to the
registered grammar adapter. -/
def ExtractOutline (A : Adapters) (root : Node) (language : List Char) :
    Except (List Char) (List Char) :=
  match createParserForLanguage language with
  | .error e => .error (str "error creating parser: " ++ e)
  | .ok _ =>
    if language = str "go" then .ok (A.goAdapter root)
    else if language = str "java" then .ok (A.javaAdapter root)
    else if language = str "javascript" then .ok (A.jsAdapter root)
    else if language = str "swift" then .ok (A.swiftAdapter root)
    else if language = str "typescript" then .ok (A.tsAdapter root)
    else if language = str "python" then .ok (A.pyAdapter root)
    else .error (str "unsupported language: " ++ language)

/-- The language tags with a grammar adapter registered in the ExtractOutline
dispatch. -/
def registeredAdapterTags : List (List Char) :=
  [str "go", str "java", str "javascript", str "swift", str "typescript", str "python"]

/-- Embedding of detector.LanguageInfo. -/
structure LanguageInfo : Type where
  name : List Char
  extensions : List (List Char)
  description : List Char

/-- Embedding of detector.SupportedLanguages, as an association list keyed by
language name. -/
def SupportedLanguages : List (List Char × LanguageInfo) :=
  [ (str "go", ⟨str "go", [str ".go"], str "Go programming language"⟩),
    (str "java", ⟨str "java", [str ".java"], str "Java programming language"⟩),
    (str "javascript", ⟨str "javascript", [str ".js", str ".jsx"],
      str "JavaScript programming language"⟩),
    (str "typescript", ⟨str "typescript", [str ".ts"], str "TypeScript programming language"⟩),
    (str "tsx", ⟨str "tsx", [str ".tsx"], str "TypeScript JSX"⟩),
    (str "python", ⟨str "python", [str ".py"], str "Python programming language"⟩),
    (str "swift", ⟨str "swift", [str ".swift"], str "Swift programming language"⟩),
    (str "c", ⟨str "c", [str ".c", str ".h"], str "C programming language"⟩),
    (str "cpp", ⟨str "cpp",
      [str ".cpp", str ".cxx", str ".cc", str ".hpp", str ".hxx", str ".hh"],
      str "C++ programming language"⟩) ]

/-- Adapter family with the embedded Go and Python extractors in their slots;
used to instantiate dispatch theorems on concrete inputs. -/
def sampleAdapters : Adapters :=
  ⟨ExtractGoOutline, fun _ => [], fun _ => [], fun _ => [], fun _ => [],
    ExtractPythonOutline⟩

/-- The node kinds carrying a case in the Go adapter dispatch processNode. -/
def goDispatchKinds : List (List Char) :=
  [str "source_file", str "package_clause", str "import_declaration",
   str "function_declaration", str "method_declaration", str "type_declaration",
   str "const_declaration", str "var_declaration"]

/-- The node kinds carrying a case in the C adapter dispatch processCNode. -/
def cDispatchKinds : List (List Char) :=
  [str "translation_unit", str "preproc_def", str "preproc_function_def",
   str "preproc_include", str "function_definition", str "declaration",
   str "struct_specifier", str "union_specifier", str "enum_specifier",
   str "type_definition", str "namespace_definition", str "class_specifier",
   str "template_declaration"]

/-- List-world mirror of docCommentLoop, used to reason about the walk by
ordinary list induction. -/
def docLoopList : List Node → List Char → List Char
  | [], acc => acc
  | c :: rest, acc =>
    if goContains c.kind (str "comment") then
      let t := goTrimSpace (getNodeText c)
      docLoopList rest (if acc = [] then t else t ++ '\n' :: acc)
    else acc

/-! Concrete trees used by the counterexamples and the witnesses. -/

/-- Name node of the public method inside the private class. -/
def c1MethodName : Node := node "identifier" "m" 3 [] [] [] true []

/-- Public method nested one level inside the private class. -/
def c1Method : Node :=
  node "function_definition" "def m(self): pass" 3 [] []
    [("name", c1MethodName), ("parameters", node "parameters" "(self)" 3 [] [] [] true [])]
    true []

/-- Body block of the private class. -/
def c1Body : Node := node "block" "def m(self): pass" 3 [] [c1Method] [] true []

/-- Name node of the private class. -/
def c1ClassName : Node := node "identifier" "_C" 2 [] [] [] true []

/-- Private-named class holding one public method. -/
def c1Class : Node :=
  node "class_definition" "class _C: ..." 2 [] [c1Body]
    [("name", c1ClassName), ("body", c1Body)] true []

/-- Python module whose only declaration is the private class. -/
def c1Root : Node := node "module" "" 0 [] [c1Class] [] false []

/-- Name node of a Go function nested in an unrecognized wrapper. -/
def c2FnName : Node := node "identifier" "F" 1 [] [] [] true []

/-- Go function declaration nested inside the unrecognized wrapper node. -/
def c2Fn : Node :=
  node "function_declaration" "func F() \x7b\x7d" 1 [] []
    [("name", c2FnName), ("parameters", node "parameter_list" "()" 1 [] [] [] true [])]
    true []

/-- Wrapper node of a kind absent from the Go dispatch table. -/
def c2Wrapper : Node := node "block" "\x7b func F() \x7b\x7d \x7d" 0 [] [c2Fn] [] true []

/-- C function definition nested inside an unrecognized wrapper node. -/
def c2CFn : Node :=
  node "function_definition" "int g(void) \x7b\x7d" 1 [] []
    [("type", node "primitive_type" "int" 1 [] [] [] true []),
     ("declarator", node "function_declarator" "g(void)" 1 [] []
       [("declarator", node "identifier" "g" 1 [] [] [] true [])] true [])]
    true []

/-- Wrapper node of a kind absent from the C dispatch table. -/
def c2CWrap : Node :=
  node "expression_statement" "int g(void) \x7b\x7d" 0 [] [c2CFn] [] true []

/-- Single-line comment on row 0, two rows above the declaration: the source
line between the two is blank. -/
def c3Comment : Node := node "comment" "// lonely" 0 [] [] [] true []

/-- Declaration starting on row 2, with the comment as its nearest preceding
named sibling across the blank line. -/
def c3Decl : Node :=
  node "function_declaration" "func H() \x7b\x7d" 2 [] []
    [("name", node "identifier" "H" 2 [] [] [] true [])] true [c3Comment]

/-- Name node of a private module-level Python function. -/
def c5PrivName : Node := node "identifier" "_hidden" 4 [] [] [] true []

/-- Private module-level Python function. -/
def c5PrivFn : Node :=
  node "function_definition" "def _hidden(): pass" 4 [] []
    [("name", c5PrivName), ("parameters", node "parameters" "()" 4 [] [] [] true [])]
    true []

/-- Python module whose only declaration is the private function. -/
def c5Root : Node := node "module" "" 0 [] [c5PrivFn] [] false []

/-- Upper comment of a two-comment documentation block. -/
def c6CommentFirst : Node := node "comment" "// first" 0 [] [] [] true []

/-- Lower comment of a two-comment documentation block. -/
def c6CommentSecond : Node := node "comment" "// second" 1 [] [] [] true []

/-- Non-comment sibling one step further back, stopping the walk. -/
def c6Stop : Node := node "var_declaration" "var x = 1" 2 [] [] [] true []

/-- Declaration preceded by the two contiguous comments and then a
non-comment sibling. -/
def c6Decl : Node :=
  node "function_declaration" "func K() \x7b\x7d" 3 [] []
    [("name", node "identifier" "K" 3 [] [] [] true [])] true
    [c6CommentSecond, c6CommentFirst, c6Stop]

/-- Name node of the function used for the line-annotation witness. -/
def c7Name : Node := node "identifier" "Greet" 9 [] [] [] true []

/-- Go function declaration starting on zero-indexed row 9. -/
def c7Fn : Node :=
  node "function_declaration" "func Greet(name string) string \x7b\x7d" 9 [] []
    [("name", c7Name),
     ("parameters", node "parameter_list" "(name string)" 9 [] [] [] true []),
     ("result", node "type_identifier" "string" 9 [] [] [] true [])]
    true []

/-- C function node whose signature pieces carry newlines, tabs and space
runs, exercising the collapsed normalization. -/
def c8Fn : Node :=
  node "function_definition" "long\n\t long  f( int  x ) \x7b\x7d" 0 [] []
    [("type", node "sized_type_specifier" "long\n\t long" 0 [] [] [] true []),
     ("declarator", node "function_declarator" "f( int  x )" 0 [] []
       [("declarator", node "identifier" "f" 0 [] [] [] true [])] true [])]
    true []

/-- Go var declaration whose single var_spec child carries no name field, so
the processConstAndVar loop never sets hasItems. -/
def c10Node : Node :=
  node "var_declaration" "var ()" 5 []
    [node "var_spec" "" 5 [] [] [] true []] [] true []

/-- Empty module root used to instantiate the dispatch theorems. -/
def emptyRoot : Node := node "module" "" 0 [] [] [] false []

/-! General list lemmas shared by the claim proofs. -/

theorem suffix_append_left {α : Type} (a : List α) {s b : List α} (h : s <:+ b) :
    s <:+ a ++ b :=
  h.trans (List.suffix_append a b)

theorem infix_append_left {α : Type} (a : List α) {s b : List α} (h : s <:+: b) :
    s <:+: a ++ b := by
  obtain ⟨u, v, rfl⟩ := h
  exact ⟨a ++ u, v, by simp [List.append_assoc]⟩

theorem infix_append_right {α : Type} (r : List α) {s b : List α} (h : s <:+: b) :
    s <:+: b ++ r := by
  obtain ⟨u, v, rfl⟩ := h
  exact ⟨u, v ++ r, by simp [List.append_assoc]⟩

theorem prefix_assoc_glue {α : Type} (a b c : List α) : (a ++ b) <+: a ++ (b ++ c) :=
  ⟨c, by simp [List.append_assoc]⟩

/-- Induction principle for NodeList alone, sidestepping the mutual recursor. -/
theorem nodeListInd (motive : NodeList → Prop) (hnil : motive .nil)
    (hcons : ∀ h t, motive t → motive (.cons h t)) : ∀ l, motive l
  | .nil => hnil
  | .cons h t => hcons h t (nodeListInd motive hnil hcons t)

theorem containsAux_iff (pat : List Char) :
    ∀ s, containsAux pat s = true ↔ pat <:+: s := by
  intro s
  induction s with
  | nil => simp [containsAux, List.isEmpty_iff, List.infix_nil]
  | cons c t ih =>
    simp only [containsAux, Bool.or_eq_true, List.isPrefixOf_iff_prefix, ih,
      List.infix_cons_iff]

theorem goContains_iff {s pat : List Char} : goContains s pat = true ↔ pat <:+: s :=
  containsAux_iff pat s

theorem goContains_eq_false {s pat : List Char} :
    goContains s pat = false ↔ ¬ pat <:+: s := by
  rw [← goContains_iff]
  cases h : goContains s pat <;> simp

/-! Claim C7: line annotations are the 1-indexed start row. -/

/-- C7: for a declaration the adapters annotate with a line number, the
emitted line N annotation equals the node's zero-indexed start row plus one;
getNodeLineNumber computes row plus one and processFunction renders exactly
that number in the trailing annotation of the function line. -/
theorem lineAnnotationIsRowPlusOne (n : Node) (indent : List Char) (nameNode : Node)
    (h : n.childByFieldName (str "name") = some nameNode) :
    getNodeLineNumber n = n.row + 1 ∧
    (str " \x7b //... \x7d // line " ++ natChars (n.row + 1) ++ str "\n\n") <:+
      processFunction n indent := by
  refine ⟨rfl, ?_⟩
  simp only [processFunction, h, getNodeLineNumber, List.append_assoc]
  exact suffix_append_left _ (suffix_append_left _ (suffix_append_left _
    (suffix_append_left _ (suffix_append_left _ (List.suffix_append _ _)))))

/-- Witness for C7 at the concrete Greet declaration on zero-indexed row 9. -/
theorem lineAnnotationIsRowPlusOne_witness :
    getNodeLineNumber c7Fn = c7Fn.row + 1 ∧
    (str " \x7b //... \x7d // line " ++ natChars (c7Fn.row + 1) ++ str "\n\n") <:+
      processFunction c7Fn [] :=
  lineAnnotationIsRowPlusOne c7Fn [] c7Name rfl

/-! Claim C4: ExtractOutline errs exactly on unregistered adapter tags. -/

/-- C4: ExtractOutline returns an error precisely when no grammar adapter is
registered for the requested language tag in its dispatch; every registered
tag returns rendered outline text, and the unsupported-language failure is an
explicit error value handed to the caller. -/
theorem extractOutlineErrorIffNoAdapter (A : Adapters) (root : Node) (language : List Char) :
    (∃ out, ExtractOutline A root language = .ok out) ↔
      language ∈ registeredAdapterTags := by
  constructor
  · rintro ⟨out, hout⟩
    by_contra hmem
    simp only [registeredAdapterTags, List.mem_cons, List.not_mem_nil, or_false,
      not_or] at hmem
    obtain ⟨h1, h2, h3, h4, h5, h6⟩ := hmem
    by_cases h7 : language = str "tsx"
    · subst h7
      exact Except.noConfusion hout
    · unfold ExtractOutline createParserForLanguage at hout
      rw [if_neg h1, if_neg h2, if_neg h3, if_neg h4, if_neg h5, if_neg h7,
        if_neg h6] at hout
      exact Except.noConfusion hout
  · intro hm
    simp only [registeredAdapterTags, List.mem_cons, List.not_mem_nil, or_false] at hm
    rcases hm with rfl | rfl | rfl | rfl | rfl | rfl
    · exact ⟨A.goAdapter root, rfl⟩
    · exact ⟨A.javaAdapter root, rfl⟩
    · exact ⟨A.jsAdapter root, rfl⟩
    · exact ⟨A.swiftAdapter root, rfl⟩
    · exact ⟨A.tsAdapter root, rfl⟩
    · exact ⟨A.pyAdapter root, rfl⟩

/-- Witness for C4: the go tag is registered and yields a rendered outline. -/
theorem extractOutlineErrorIffNoAdapter_witness :
    ∃ out, ExtractOutline sampleAdapters emptyRoot (str "go") = .ok out :=
  (extractOutlineErrorIffNoAdapter sampleAdapters emptyRoot (str "go")).mpr (by decide)

/-! Claim C9: the tsx tag has a parser but no adapter. -/

/-- C9: for the tsx tag, ExtractOutline returns the unsupported-language
error on every input, although createParserForLanguage registers a TSX
parser for that tag and the detector maps the .tsx extension to it. -/
theorem tsxParserRegisteredButUnsupported (A : Adapters) (root : Node) :
    ExtractOutline A root (str "tsx") = .error (str "unsupported language: tsx") ∧
    createParserForLanguage (str "tsx") = .ok ParserLang.tsx ∧
    (SupportedLanguages.find? (fun p => p.1 == str "tsx")).map
      (fun p => p.2.extensions) = some [str ".tsx"] :=
  ⟨rfl, rfl, rfl⟩

/-! Claim C10: const and var blocks close only when a spec has a name. -/

/-- Items of the processConstAndVar loop vanish when no spec child carries a
name, which is exactly the condition under which hasItems stays false. -/
theorem constVarItems_eq_nil (l : NodeList) (indent : List Char)
    (h : ∀ c ∈ l.toList,
      ((c.kind == str "const_spec" || c.kind == str "var_spec") &&
        (c.childByFieldName (str "name")).isSome) = false) :
    constVarItems l indent = [] := by
  induction l using nodeListInd with
  | hnil => rfl
  | hcons c t ih =>
    have hc := h c (List.Mem.head _)
    have ht : constVarItems t indent = [] :=
      ih (fun d hd => h d (List.Mem.tail _ hd))
    simp only [constVarItems, ht, List.append_nil]
    simp only [Bool.and_eq_false_iff, Bool.or_eq_false_iff, beq_eq_false_iff_ne,
      ne_eq] at hc
    rcases hc with ⟨hk1, hk2⟩ | hname
    · simp [constVarItem, hk1, hk2]
    · by_cases hkind : c.kind = str "const_spec" ∨ c.kind = str "var_spec"
      · rw [constVarItem, if_pos hkind]
        cases hcn : c.childByFieldName (str "name") with
        | none => rfl
        | some nm => rw [hcn] at hname; simp at hname
      · simp [constVarItem, hkind]

/-- C10: processConstAndVar always emits the opening const or var line, and
emits the closing parenthesis line exactly when some const_spec or var_spec
child has a name field; with no named spec the opening line ends the output
with no matching closing delimiter. -/
theorem constVarClosingIffNamedSpec (n : Node) (indent : List Char)
    (_h : n.kind = str "const_declaration" ∨ n.kind = str "var_declaration") :
    goContains (processConstAndVar n indent) (declTypeText n ++ str " (\n") = true ∧
    (goHasItems n = true → (indent ++ str ")\n\n") <:+ processConstAndVar n indent) ∧
    (goHasItems n = false →
      (declTypeText n ++ str " (\n") <:+ processConstAndVar n indent) := by
  refine ⟨?_, ?_, ?_⟩
  · rw [goContains_iff]
    unfold processConstAndVar
    simp only [List.append_assoc]
    exact infix_append_left _ (infix_append_left _
      (List.IsPrefix.isInfix (prefix_assoc_glue _ _ _)))
  · intro hi
    unfold processConstAndVar
    rw [if_pos hi]
    exact List.suffix_append _ _
  · intro hi
    unfold processConstAndVar
    rw [if_neg (by simp [hi])]
    have hitems : constVarItems n.namedChildren indent = [] := by
      apply constVarItems_eq_nil
      intro c hc
      have := (List.any_eq_false.mp hi) c hc
      simpa using this
    rw [hitems]
    simp only [List.append_nil, List.append_assoc]
    exact suffix_append_left _ (List.suffix_append _ _)

/-- Witness for C10 at a var declaration whose single spec has no name. -/
theorem constVarClosingIffNamedSpec_witness :
    goContains (processConstAndVar c10Node []) (declTypeText c10Node ++ str " (\n") = true ∧
    (goHasItems c10Node = true → (([] : List Char) ++ str ")\n\n") <:+ processConstAndVar c10Node []) ∧
    (goHasItems c10Node = false →
      (declTypeText c10Node ++ str " (\n") <:+ processConstAndVar c10Node []) :=
  constVarClosingIffNamedSpec c10Node [] (Or.inr rfl)

/-! Claim C2: traversal of unrecognized node kinds. -/

/-- C2 counterexample: the Go adapter drops a node whose kind is absent from
its dispatch table instead of recursing, so a function declaration nested
inside an unrecognized block wrapper produces no output at all, although the
same declaration alone renders a line. -/
theorem goUnknownKindDrops_cex :
    c2Wrapper.kind = str "block" ∧
    c2Wrapper.kind ∉ goDispatchKinds ∧
    c2Fn ∈ c2Wrapper.namedChildren.toList ∧
    c2Fn.kind = str "function_declaration" ∧
    processNode c2Fn 0 ≠ [] ∧
    processNode c2Wrapper 0 = [] :=
  ⟨rfl, by decide, List.Mem.head _, rfl, by decide, by decide⟩

/-- C2 amended: only the C and C++ adapter recurses into node kinds absent
from its dispatch table (its default branch); the Go adapter has no default
branch, so a kind absent from its table is ignored outright and produces no
output, recursing only under source_file. -/
theorem unknownKindTraversal :
    (∀ n lvl, n.kind ∉ cDispatchKinds →
      processCNode n lvl = cProcessChildren n.namedChildren lvl) ∧
    (∀ n lvl, n.kind ∉ goDispatchKinds → processNode n lvl = []) := by
  constructor
  · intro n lvl hmem
    cases n with
    | mk kind text row all named fields hp pv =>
      simp only [cDispatchKinds, List.mem_cons, List.not_mem_nil, or_false, not_or,
        Node.kind] at hmem
      obtain ⟨h1, h2, h3, h4, h5, h6, h7, h8, h9, h10, h11, h12, h13⟩ := hmem
      simp only [processCNode, Node.namedChildren]
      rw [if_neg h1, if_neg (not_or.mpr ⟨h2, h3⟩), if_neg h4, if_neg h5, if_neg h6,
        if_neg (not_or.mpr ⟨h7, not_or.mpr ⟨h8, h9⟩⟩), if_neg h10, if_neg h11,
        if_neg h12, if_neg h13]
  · intro n lvl hmem
    cases n with
    | mk kind text row all named fields hp pv =>
      simp only [goDispatchKinds, List.mem_cons, List.not_mem_nil, or_false, not_or,
        Node.kind] at hmem
      obtain ⟨h1, h2, h3, h4, h5, h6, h7, h8⟩ := hmem
      simp only [processNode]
      rw [if_neg h1, if_neg h2, if_neg h3, if_neg h4, if_neg h5, if_neg h6,
        if_neg (not_or.mpr ⟨h7, h8⟩)]

/-- Witness for C2 amended: a C wrapper recurses, a Go wrapper drops. -/
theorem unknownKindTraversal_witness :
    processCNode c2CWrap 0 = cProcessChildren c2CWrap.namedChildren 0 ∧
    processNode c2Wrapper 0 = [] :=
  ⟨unknownKindTraversal.1 c2CWrap 0 (by decide),
   unknownKindTraversal.2 c2Wrapper 0 (by decide)⟩

/-! Claims C5 and C1: the Python visibility filter. -/

/-- Each member of a named-children list contributes one segment to the
module walk output. -/
theorem pyProcessChildren_decomp (l : NodeList) (lvl : Nat) (c : Node)
    (hc : c ∈ l.toList) :
    ∃ a b, pyProcessChildren l lvl = a ++ pyProcessNode c lvl ++ b := by
  induction l using nodeListInd with
  | hnil => cases hc
  | hcons h t ih =>
    simp only [NodeList.toList] at hc
    rcases List.mem_cons.mp hc with rfl | hc
    · exact ⟨[], pyProcessChildren t lvl, by simp [pyProcessChildren]⟩
    · obtain ⟨a, b, heq⟩ := ih hc
      exact ⟨pyProcessNode h lvl ++ a, b,
        by simp [pyProcessChildren, heq, List.append_assoc]⟩

/-- Each member of a class body contributes one segment to the method loop
output. -/
theorem pyMethods_decomp (l : NodeList) (ind : List Char) (m : Node)
    (hm : m ∈ l.toList) :
    ∃ a b, pyMethods l ind = a ++ pyMethodItem ind m ++ b := by
  induction l using nodeListInd with
  | hnil => cases hm
  | hcons h t ih =>
    simp only [NodeList.toList] at hm
    rcases List.mem_cons.mp hm with rfl | hm
    · exact ⟨[], pyMethods t ind, by simp [pyMethods]⟩
    · obtain ⟨a, b, heq⟩ := ih hm
      exact ⟨pyMethodItem ind h ++ a, b,
        by simp [pyMethods, heq, List.append_assoc]⟩

/-- C5: at Python module level, a function or class definition whose name
starts with an underscore contributes nothing to the outline, while one with
a public name has its definition line appear in the output, independent of
its siblings. -/
theorem moduleVisibilityFilter (root : Node) (c : Node) (nameNode : Node)
    (hroot : root.kind = str "module")
    (hc : c ∈ root.namedChildren.toList)
    (hn : c.childByFieldName (str "name") = some nameNode) :
    ExtractPythonOutline root = pyProcessChildren root.namedChildren 0 ∧
    ((c.kind = str "function_definition" ∨ c.kind = str "class_definition") →
      goHasPrefix (getNodeText nameNode) (str "_") = true →
      pyProcessNode c 0 = []) ∧
    (c.kind = str "function_definition" →
      goHasPrefix (getNodeText nameNode) (str "_") = false →
      (str "def " ++ getNodeText nameNode) <:+: ExtractPythonOutline root) ∧
    (c.kind = str "class_definition" →
      goHasPrefix (getNodeText nameNode) (str "_") = false →
      (str "class " ++ getNodeText nameNode) <:+: ExtractPythonOutline root) := by
  have hmod : ExtractPythonOutline root = pyProcessChildren root.namedChildren 0 := by
    cases root with
    | mk kind text row all named fields hp pv =>
      simp only [Node.kind] at hroot
      subst hroot
      simp only [ExtractPythonOutline, pyProcessNode, Node.namedChildren]
      rw [if_pos trivial]
  obtain ⟨a, b, hdec⟩ := pyProcessChildren_decomp root.namedChildren 0 c hc
  refine ⟨hmod, ?_, ?_, ?_⟩
  · intro hk hpriv
    rcases hk with hk | hk
    · cases c with
      | mk kind text row all named fields hp pv =>
        simp only [Node.kind] at hk
        subst hk
        simp only [Node.childByFieldName, Node.fields] at hn
        simp only [pyProcessNode]
        rw [if_neg (by decide), if_neg (by decide), if_pos trivial]
        simp only [pyFunctionCase, Node.childByFieldName, Node.fields, hn]
        simp [hpriv]
    · cases c with
      | mk kind text row all named fields hp pv =>
        simp only [Node.kind] at hk
        subst hk
        simp only [Node.childByFieldName, Node.fields] at hn
        simp only [pyProcessNode]
        rw [if_neg (by decide), if_neg (by decide), if_neg (by decide), if_pos trivial]
        simp only [pyClassCase, Node.childByFieldName, Node.fields, hn]
        simp [hpriv]
  · intro hk hpub
    rw [hmod, hdec]
    refine List.IsInfix.trans ?_ (List.infix_append _ _ _)
    cases c with
    | mk kind text row all named fields hp pv =>
      simp only [Node.kind] at hk
      subst hk
      simp only [Node.childByFieldName, Node.fields] at hn
      simp only [pyProcessNode]
      rw [if_neg (by decide), if_neg (by decide), if_pos trivial]
      simp only [pyFunctionCase, Node.childByFieldName, Node.fields, hn, hpub,
        Bool.not_false, Bool.not_true, if_neg]
      simp only [pyIndent, Nat.zero_mul, List.replicate_zero, List.nil_append,
        List.append_assoc]
      exact (prefix_assoc_glue _ _ _).isInfix
  · intro hk hpub
    rw [hmod, hdec]
    refine List.IsInfix.trans ?_ (List.infix_append _ _ _)
    cases c with
    | mk kind text row all named fields hp pv =>
      simp only [Node.kind] at hk
      subst hk
      simp only [Node.childByFieldName, Node.fields] at hn
      simp only [pyProcessNode]
      rw [if_neg (by decide), if_neg (by decide), if_neg (by decide), if_pos trivial]
      simp only [pyClassCase, Node.childByFieldName, Node.fields, hn, hpub,
        Bool.not_false, Bool.not_true, if_neg]
      simp only [pyIndent, Nat.zero_mul, List.replicate_zero, List.nil_append,
        List.append_assoc]
      exact (prefix_assoc_glue _ _ _).isInfix

/-- Witness for C5: a private module-level function contributes nothing. -/
theorem moduleVisibilityFilter_witness :
    ExtractPythonOutline c5Root = pyProcessChildren c5Root.namedChildren 0 ∧
    ((c5PrivFn.kind = str "function_definition" ∨ c5PrivFn.kind = str "class_definition") →
      goHasPrefix (getNodeText c5PrivName) (str "_") = true →
      pyProcessNode c5PrivFn 0 = []) ∧
    (c5PrivFn.kind = str "function_definition" →
      goHasPrefix (getNodeText c5PrivName) (str "_") = false →
      (str "def " ++ getNodeText c5PrivName) <:+: ExtractPythonOutline c5Root) ∧
    (c5PrivFn.kind = str "class_definition" →
      goHasPrefix (getNodeText c5PrivName) (str "_") = false →
      (str "class " ++ getNodeText c5PrivName) <:+: ExtractPythonOutline c5Root) :=
  moduleVisibilityFilter c5Root c5PrivFn c5PrivName rfl (List.Mem.head _) rfl

/-- C1 counterexample: inside a private-named class, a public method is
transitively suppressed; the class hits the early return before its methods
are examined, so the method line appears nowhere in the output. -/
theorem privateClassPublicMethod_cex :
    goHasPrefix (getNodeText c1ClassName) (str "_") = true ∧
    c1Class.kind = str "class_definition" ∧
    c1Class.childByFieldName (str "name") = some c1ClassName ∧
    c1Class.childByFieldName (str "body") = some c1Body ∧
    c1Method ∈ c1Body.namedChildren.toList ∧
    c1Method.kind = str "function_definition" ∧
    c1Method.childByFieldName (str "name") = some c1MethodName ∧
    goHasPrefix (getNodeText c1MethodName) (str "_") = false ∧
    c1Class ∈ c1Root.namedChildren.toList ∧
    ExtractPythonOutline c1Root = [] ∧
    goContains (ExtractPythonOutline c1Root) (str "def m") = false :=
  ⟨rfl, rfl, rfl, rfl, List.Mem.head _, rfl, rfl, rfl, List.Mem.head _,
    by decide, by decide⟩

/-- C1 amended: a method nested one level inside a class is emitted exactly
when the class name and the method name both lack a leading underscore; a
private-named class returns before its methods are examined and so
transitively suppresses even public-named methods, while inside a
public-named class each method is filtered by its own name. -/
theorem classMethodVisibility (n : Node) (lvl : Nat) (nameNode : Node)
    (hk : n.kind = str "class_definition")
    (hn : n.childByFieldName (str "name") = some nameNode) :
    (goHasPrefix (getNodeText nameNode) (str "_") = true →
      pyProcessNode n lvl = []) ∧
    (goHasPrefix (getNodeText nameNode) (str "_") = false →
      ∀ bodyNode m methodName,
        n.childByFieldName (str "body") = some bodyNode →
        m ∈ bodyNode.namedChildren.toList →
        m.kind = str "function_definition" →
        m.childByFieldName (str "name") = some methodName →
        ((goHasPrefix (getNodeText methodName) (str "_") = true →
            pyMethodItem (pyIndent lvl) m = []) ∧
         (goHasPrefix (getNodeText methodName) (str "_") = false →
            (str "def " ++ getNodeText methodName) <:+: pyProcessNode n lvl))) := by
  constructor
  · intro hpriv
    cases n with
    | mk kind text row all named fields hp pv =>
      simp only [Node.kind] at hk
      subst hk
      simp only [Node.childByFieldName, Node.fields] at hn
      simp only [pyProcessNode]
      rw [if_neg (by decide), if_neg (by decide), if_neg (by decide), if_pos trivial]
      simp only [pyClassCase, Node.childByFieldName, Node.fields, hn]
      simp [hpriv]
  · intro hpub bodyNode m methodName hbody hm hmk hmn
    constructor
    · intro hmpriv
      cases m with
      | mk kind text row all named fields hp pv =>
        simp only [Node.kind] at hmk
        subst hmk
        simp only [Node.childByFieldName, Node.fields] at hmn
        simp only [pyMethodItem, Node.kind]
        rw [if_pos trivial]
        simp only [Node.childByFieldName, Node.fields, hmn]
        simp [hmpriv]
    · intro hmpub
      have hitem : (str "def " ++ getNodeText methodName) <:+:
          pyMethodItem (pyIndent lvl) m := by
        cases m with
        | mk kind text row all named fields hp pv =>
          simp only [Node.kind] at hmk
          subst hmk
          simp only [Node.childByFieldName, Node.fields] at hmn
          simp only [pyMethodItem, Node.kind]
          rw [if_pos trivial]
          simp only [Node.childByFieldName, Node.fields, hmn, hmpub]
          rw [if_neg (by simp [hmpub])]
          rw [show str "    def " = str "    " ++ str "def " from rfl]
          simp only [List.append_assoc]
          exact infix_append_left _ (infix_append_left _
            (prefix_assoc_glue _ _ _).isInfix)
      obtain ⟨a, b, hdec⟩ := pyMethods_decomp bodyNode.namedChildren (pyIndent lvl) m hm
      cases n with
      | mk kind text row all named fields hp pv =>
        simp only [Node.kind] at hk
        subst hk
        simp only [Node.childByFieldName, Node.fields] at hn hbody
        simp only [pyProcessNode]
        rw [if_neg (by decide), if_neg (by decide), if_neg (by decide), if_pos trivial]
        simp only [pyClassCase, Node.childByFieldName, Node.fields, hn, hbody, hpub]
        rw [if_neg (by simp [hpub])]
        rw [hdec]
        exact infix_append_right _ (infix_append_left _
          (hitem.trans (List.infix_append _ _ _)))

/-! Claims C3 and C6: doc-comment attachment. -/

/-- The walk over the previous-named-sibling chain equals its list form. -/
theorem docCommentLoop_eq_list (l : NodeList) :
    ∀ acc, docCommentLoop l acc = docLoopList l.toList acc := by
  induction l using nodeListInd with
  | hnil => intro acc; rfl
  | hcons c t ih =>
    intro acc
    cases hcm : goContains c.kind (str "comment") <;>
      simp [docCommentLoop, docLoopList, NodeList.toList, hcm, ih]

/-- A nonempty accumulator survives as a suffix of the finished walk. -/
theorem docLoop_suffix (l : NodeList) :
    ∀ acc, acc ≠ [] → acc <:+ docCommentLoop l acc := by
  induction l using nodeListInd with
  | hnil => intro acc _; exact List.suffix_refl acc
  | hcons c t ih =>
    intro acc hacc
    simp only [docCommentLoop]
    cases hcm : goContains c.kind (str "comment")
    · simp only [hcm, Bool.false_eq_true, if_false]
      exact List.suffix_refl acc
    · simp only [hcm, if_true]
      rw [if_neg hacc]
      have hstep : acc <:+ goTrimSpace (getNodeText c) ++ '\n' :: acc :=
        suffix_append_left _ ⟨['\n'], rfl⟩
      exact hstep.trans (ih _ (by simp))

/-- C3 amended: findDocComment stops only at a non-comment named sibling; a
comment whose sibling chain down to the declaration is all comments attaches
regardless of the rows involved, so a blank source line between the comment
and the declaration does not detach it (the walk never inspects rows). -/
theorem docCommentContiguityRule (n : Node) (c : Node) (rest : NodeList)
    (hp : n.hasParent = true) (hprev : n.prevNamed = NodeList.cons c rest) :
    (goContains c.kind (str "comment") = false → findDocComment n = []) ∧
    (goContains c.kind (str "comment") = true →
      goTrimSpace (getNodeText c) ≠ [] →
      (goTrimSpace (getNodeText c) <:+ findDocComment n ∧ findDocComment n ≠ [])) := by
  unfold findDocComment
  rw [hp, hprev]
  simp only [if_true]
  constructor
  · intro hcm
    simp [docCommentLoop, hcm]
  · intro hcm hne
    simp only [docCommentLoop, hcm, if_true, if_pos trivial]
    have hrun := docLoop_suffix rest (goTrimSpace (getNodeText c)) hne
    refine ⟨hrun, ?_⟩
    obtain ⟨u, hu⟩ := hrun
    intro h0
    rw [h0] at hu
    exact hne (List.append_eq_nil.mp hu).2

/-- C3 counterexample: a one-line comment on row 0 whose declaration starts
on row 2, leaving row 1 blank between them, still attaches: findDocComment
returns its text, contradicting the claimed exclusion. -/
theorem blankSeparatedCommentAttaches_cex :
    goContains c3Comment.kind (str "comment") = true ∧
    c3Decl.prevNamed = NodeList.cons c3Comment NodeList.nil ∧
    c3Comment.row + 1 < c3Decl.row ∧
    findDocComment c3Decl = str "// lonely" ∧
    findDocComment c3Decl ≠ [] :=
  ⟨by decide, rfl, by decide, by decide, by decide⟩

/-- Witness for C3 amended at the blank-line-separated comment. -/
theorem docCommentContiguityRule_witness :
    (goContains c3Comment.kind (str "comment") = false → findDocComment c3Decl = []) ∧
    (goContains c3Comment.kind (str "comment") = true →
      goTrimSpace (getNodeText c3Comment) ≠ [] →
      (goTrimSpace (getNodeText c3Comment) <:+ findDocComment c3Decl ∧
        findDocComment c3Decl ≠ [])) :=
  docCommentContiguityRule c3Decl c3Comment .nil rfl rfl

/-- The walk returns the accumulator untouched at an empty tail or a
non-comment sibling. -/
theorem docLoopList_stop (rest : List Node) (acc : List Char)
    (hstop : rest = [] ∨ ∃ d rest', rest = d :: rest' ∧
      goContains d.kind (str "comment") = false) :
    docLoopList rest acc = acc := by
  rcases hstop with rfl | ⟨d, rest', rfl, hd⟩
  · rfl
  · simp [docLoopList, hd]

/-- One unfolding step of the list-world walk. -/
theorem docLoopList_cons (c : Node) (l : List Node) (acc : List Char) :
    docLoopList (c :: l) acc =
      if goContains c.kind (str "comment") then
        docLoopList l (if acc = [] then goTrimSpace (getNodeText c)
          else goTrimSpace (getNodeText c) ++ '\n' :: acc)
      else acc := rfl

theorem docLoopList_cons_true (c : Node) (l : List Node) (acc : List Char)
    (hc : goContains c.kind (str "comment") = true) :
    docLoopList (c :: l) acc =
      docLoopList l (if acc = [] then goTrimSpace (getNodeText c)
        else goTrimSpace (getNodeText c) ++ '\n' :: acc) := by
  rw [docLoopList_cons, if_pos hc]

theorem joinNl_append_singleton (xs : List (List Char)) (y : List Char) (hxs : xs ≠ []) :
    joinNl (xs ++ [y]) = joinNl xs ++ '\n' :: y := by
  induction xs with
  | nil => cases hxs rfl
  | cons a t ih =>
    cases t with
    | nil => simp [joinNl]
    | cons b u =>
      have hrec : joinNl (b :: (u ++ [y])) = joinNl (b :: u) ++ '\n' :: y :=
        ih (by simp)
      show a ++ '\n' :: joinNl (b :: (u ++ [y])) =
        (a ++ '\n' :: joinNl (b :: u)) ++ '\n' :: y
      rw [hrec, List.append_assoc]
      rfl

/-- Running the walk over a comment run followed by a stopper, starting from
a nonempty accumulator, stacks the trimmed texts above the accumulator. -/
theorem docLoopList_run (comments : List Node) :
    ∀ (rest : List Node) (acc : List Char),
      comments ≠ [] →
      (∀ c ∈ comments, goContains c.kind (str "comment") = true ∧
        goTrimSpace (getNodeText c) ≠ []) →
      (rest = [] ∨ ∃ d rest', rest = d :: rest' ∧
        goContains d.kind (str "comment") = false) →
      acc ≠ [] →
      docLoopList (comments ++ rest) acc =
        joinNl ((comments.reverse).map fun c => goTrimSpace (getNodeText c)) ++
          '\n' :: acc := by
  induction comments with
  | nil => intro rest acc hne; cases hne rfl
  | cons c cs ih =>
    intro rest acc _ hcomm hstop hacc
    have hc := hcomm c (List.Mem.head _)
    rw [show (c :: cs) ++ rest = c :: (cs ++ rest) from rfl,
      docLoopList_cons_true c (cs ++ rest) acc hc.1, if_neg hacc]
    by_cases hcs : cs = []
    · subst hcs
      rw [show ([] : List Node) ++ rest = rest from rfl, docLoopList_stop rest _ hstop]
      simp [joinNl]
    · rw [ih rest _ hcs (fun d hd => hcomm d (List.Mem.tail _ hd)) hstop (by simp)]
      have hrevne : (cs.reverse.map fun d => goTrimSpace (getNodeText d)) ≠ [] := by
        simp [hcs]
      rw [show (((c :: cs).reverse).map fun d => goTrimSpace (getNodeText d)) =
          (cs.reverse.map fun d => goTrimSpace (getNodeText d)) ++
            [goTrimSpace (getNodeText c)] by simp,
        joinNl_append_singleton _ _ hrevne, List.append_assoc]
      rfl

/-- Running the walk from the empty accumulator yields exactly the trimmed
comment texts, nearest comment last. -/
theorem docLoopList_full (comments rest : List Node)
    (hcomm : ∀ c ∈ comments, goContains c.kind (str "comment") = true ∧
      goTrimSpace (getNodeText c) ≠ [])
    (hstop : rest = [] ∨ ∃ d rest', rest = d :: rest' ∧
      goContains d.kind (str "comment") = false) :
    docLoopList (comments ++ rest) [] =
      joinNl ((comments.reverse).map fun c => goTrimSpace (getNodeText c)) := by
  cases comments with
  | nil => simpa using docLoopList_stop rest [] hstop
  | cons c cs =>
    have hc := hcomm c (List.Mem.head _)
    rw [show (c :: cs) ++ rest = c :: (cs ++ rest) from rfl,
      docLoopList_cons_true c (cs ++ rest) [] hc.1, if_pos rfl]
    by_cases hcs : cs = []
    · subst hcs
      rw [show ([] : List Node) ++ rest = rest from rfl, docLoopList_stop rest _ hstop]
      simp [joinNl]
    · rw [docLoopList_run cs rest (goTrimSpace (getNodeText c)) hcs
        (fun d hd => hcomm d (List.Mem.tail _ hd)) hstop hc.2]
      have hrevne : (cs.reverse.map fun d => goTrimSpace (getNodeText d)) ≠ [] := by
        simp [hcs]
      rw [show (((c :: cs).reverse).map fun d => goTrimSpace (getNodeText d)) =
          (cs.reverse.map fun d => goTrimSpace (getNodeText d)) ++
            [goTrimSpace (getNodeText c)] by simp,
        joinNl_append_singleton _ _ hrevne]

/-- C6: with N contiguous comment-kind named siblings immediately before a
declaration and a stop at the first non-comment sibling, findDocComment
returns exactly the N trimmed texts joined by newlines in original
top-to-bottom order, although the walk proceeds backward. -/
theorem docCommentAggregation (n : Node) (comments rest : List Node)
    (hp : n.hasParent = true)
    (hsplit : n.prevNamed.toList = comments ++ rest)
    (hcomm : ∀ c ∈ comments, goContains c.kind (str "comment") = true ∧
      goTrimSpace (getNodeText c) ≠ [])
    (hstop : rest = [] ∨ ∃ d rest', rest = d :: rest' ∧
      goContains d.kind (str "comment") = false) :
    findDocComment n =
      joinNl ((comments.reverse).map fun c => goTrimSpace (getNodeText c)) := by
  unfold findDocComment
  rw [hp]
  simp only [if_true]
  rw [docCommentLoop_eq_list, hsplit]
  exact docLoopList_full comments rest hcomm hstop

/-- Witness for C6 at two contiguous comments over a declaration with a
non-comment sibling one step further back. -/
theorem docCommentAggregation_witness :
    findDocComment c6Decl =
      joinNl ((([c6CommentSecond, c6CommentFirst]).reverse).map
        fun c => goTrimSpace (getNodeText c)) :=
  docCommentAggregation c6Decl [c6CommentSecond, c6CommentFirst] [c6Stop] rfl rfl
    (by decide) (Or.inr ⟨c6Stop, [], rfl, by decide⟩)

/-- Witness for C1 amended at the private class holding a public method. -/
theorem classMethodVisibility_witness :
    (goHasPrefix (getNodeText c1ClassName) (str "_") = true →
      pyProcessNode c1Class 0 = []) ∧
    (goHasPrefix (getNodeText c1ClassName) (str "_") = false →
      ∀ bodyNode m methodName,
        c1Class.childByFieldName (str "body") = some bodyNode →
        m ∈ bodyNode.namedChildren.toList →
        m.kind = str "function_definition" →
        m.childByFieldName (str "name") = some methodName →
        ((goHasPrefix (getNodeText methodName) (str "_") = true →
            pyMethodItem (pyIndent 0) m = []) ∧
         (goHasPrefix (getNodeText methodName) (str "_") = false →
            (str "def " ++ getNodeText methodName) <:+: pyProcessNode c1Class 0))) :=
  classMethodVisibility c1Class 0 c1ClassName rfl rfl

/-! Claim C8: the collapsed normalization of C function signatures. -/

theorem notMem_replaceChar_self {o nw : Char} (s : List Char) (hne : nw ≠ o) :
    o ∉ replaceChar o nw s := by
  intro h
  obtain ⟨a, _, hfa⟩ := List.mem_map.mp h
  by_cases hao : a = o
  · rw [if_pos hao] at hfa
    exact hne hfa
  · rw [if_neg hao] at hfa
    exact hao hfa

theorem mem_replaceChar {c o nw : Char} {s : List Char}
    (h : c ∈ replaceChar o nw s) : c = nw ∨ c ∈ s := by
  obtain ⟨a, ha, hfa⟩ := List.mem_map.mp h
  by_cases hao : a = o
  · rw [if_pos hao] at hfa
    exact Or.inl hfa.symm
  · rw [if_neg hao] at hfa
    exact Or.inr (hfa ▸ ha)

theorem mem_replaceDoubleSpace :
    ∀ (s : List Char) (c : Char), c ∈ replaceDoubleSpace s → c ∈ s ∨ c = ' '
  | [], c, h => absurd h (by simp [replaceDoubleSpace])
  | [a], c, h => Or.inl (by simpa [replaceDoubleSpace] using h)
  | c1 :: c2 :: t, c, h => by
    simp only [replaceDoubleSpace] at h
    by_cases hsp : c1 = ' ' ∧ c2 = ' '
    · rw [if_pos hsp] at h
      rcases List.mem_cons.mp h with rfl | h
      · exact Or.inr rfl
      · rcases mem_replaceDoubleSpace t c h with h | h
        · exact Or.inl (by simp [h])
        · exact Or.inr h
    · rw [if_neg hsp] at h
      rcases List.mem_cons.mp h with rfl | h
      · exact Or.inl (List.Mem.head _)
      · rcases mem_replaceDoubleSpace (c2 :: t) c h with h | h
        · exact Or.inl (List.Mem.tail _ h)
        · exact Or.inr h

theorem length_replaceDoubleSpace_le :
    ∀ s : List Char, (replaceDoubleSpace s).length ≤ s.length
  | [] => Nat.le_refl _
  | [_] => Nat.le_refl _
  | c1 :: c2 :: t => by
    by_cases hsp : c1 = ' ' ∧ c2 = ' '
    · simp only [replaceDoubleSpace, if_pos hsp, List.length_cons]
      have := length_replaceDoubleSpace_le t
      omega
    · simp only [replaceDoubleSpace, if_neg hsp, List.length_cons]
      have := length_replaceDoubleSpace_le (c2 :: t)
      simp only [List.length_cons] at this
      omega

theorem length_replaceDoubleSpace_lt :
    ∀ s : List Char, goContains s (str "  ") = true →
      (replaceDoubleSpace s).length < s.length
  | [], h => absurd h (by decide)
  | [a], h => by
    rw [show str "  " = [' ', ' '] from rfl] at h
    simp [goContains, containsAux, List.isPrefixOf] at h
  | c1 :: c2 :: t, h => by
    by_cases hsp : c1 = ' ' ∧ c2 = ' '
    · simp only [replaceDoubleSpace, if_pos hsp, List.length_cons]
      have := length_replaceDoubleSpace_le t
      omega
    · simp only [replaceDoubleSpace, if_neg hsp, List.length_cons]
      have htail : goContains (c2 :: t) (str "  ") = true := by
        rw [show str "  " = [' ', ' '] from rfl] at h ⊢
        rw [show goContains (c1 :: c2 :: t) [' ', ' '] =
            (List.isPrefixOf [' ', ' '] (c1 :: c2 :: t) || containsAux [' ', ' '] (c2 :: t))
          from rfl, Bool.or_eq_true] at h
        rcases h with hpre | htl
        · exfalso
          simp only [List.isPrefixOf, Bool.and_eq_true, beq_iff_eq] at hpre
          exact hsp ⟨hpre.1.symm, hpre.2.1.symm⟩
        · exact htl
      have := length_replaceDoubleSpace_lt (c2 :: t) htail
      simp only [List.length_cons] at this ⊢
      omega

theorem collapse_no_double :
    ∀ (fuel : Nat) (s : List Char), s.length ≤ fuel →
      goContains (collapseSpacesAux fuel s) (str "  ") = false := by
  intro fuel
  induction fuel with
  | zero =>
    intro s hs
    have hnil : s = [] := List.length_eq_zero.mp (Nat.le_zero.mp hs)
    subst hnil
    decide
  | succ f ih =>
    intro s hs
    simp only [collapseSpacesAux]
    by_cases hc : goContains s (str "  ") = true
    · rw [if_pos hc]
      refine ih _ ?_
      have := length_replaceDoubleSpace_lt s hc
      omega
    · rw [if_neg hc]
      exact Bool.eq_false_iff.mpr hc

theorem mem_collapseSpacesAux :
    ∀ (fuel : Nat) (s : List Char) (c : Char),
      c ∈ collapseSpacesAux fuel s → c ∈ s ∨ c = ' ' := by
  intro fuel
  induction fuel with
  | zero => intro s c h; exact Or.inl h
  | succ f ih =>
    intro s c h
    simp only [collapseSpacesAux] at h
    by_cases hc : goContains s (str "  ") = true
    · rw [if_pos hc] at h
      rcases ih _ c h with h | h
      · exact mem_replaceDoubleSpace s c h
      · exact Or.inr h
    · rw [if_neg hc] at h
      exact Or.inl h

theorem goTrimSpace_within (s : List Char) : goTrimSpace s <:+: s := by
  unfold goTrimSpace
  have h1 : s.dropWhile isGoSpace <:+ s := List.dropWhile_suffix _
  have h2 : (s.dropWhile isGoSpace).reverse.dropWhile isGoSpace <:+
      (s.dropWhile isGoSpace).reverse := List.dropWhile_suffix _
  have h3 : ((s.dropWhile isGoSpace).reverse.dropWhile isGoSpace).reverse <+:
      s.dropWhile isGoSpace := by
    have hiff := @List.reverse_suffix Char
      ((s.dropWhile isGoSpace).reverse.dropWhile isGoSpace).reverse
      (s.dropWhile isGoSpace)
    rw [List.reverse_reverse] at hiff
    exact hiff.mp h2
  exact h3.isInfix.trans h1.isInfix

theorem head_dropWhile_not (p : Char → Bool) :
    ∀ (s : List Char) (c : Char), (s.dropWhile p).head? = some c → p c = false := by
  intro s
  induction s with
  | nil => intro c h; simp [List.dropWhile] at h
  | cons a t ih =>
    intro c h
    by_cases hpa : p a = true
    · rw [List.dropWhile_cons, if_pos hpa] at h
      exact ih c h
    · rw [List.dropWhile_cons, if_neg hpa] at h
      simp only [List.head?_cons, Option.some.injEq] at h
      subst h
      exact Bool.eq_false_iff.mpr hpa

theorem goTrimSpace_getLast (s : List Char) (c : Char)
    (h : (goTrimSpace s).getLast? = some c) : isGoSpace c = false := by
  unfold goTrimSpace at h
  rw [List.getLast?_reverse] at h
  exact head_dropWhile_not isGoSpace _ c h

theorem goTrimSpace_head (s : List Char) (c : Char)
    (h : (goTrimSpace s).head? = some c) : isGoSpace c = false := by
  unfold goTrimSpace at h
  rw [List.head?_reverse] at h
  set y := s.dropWhile isGoSpace with hy
  set d := y.reverse.dropWhile isGoSpace with hd
  have hdne : d ≠ [] := by
    intro h0
    rw [h0] at h
    simp at h
  obtain ⟨u, hu⟩ := @List.dropWhile_suffix Char y.reverse isGoSpace
  have hlast : y.reverse.getLast? = some c := by
    rw [← hu, List.getLast?_append_of_ne_nil u hdne]
    exact h
  rw [List.getLast?_reverse] at hlast
  exact head_dropWhile_not isGoSpace s c hlast

/-- C8: the C signature renderer obeys the collapsed normalization regime:
its output contains no newline, no tab, no two consecutive spaces, and has
neither leading nor trailing whitespace. -/
theorem signatureCollapsedNormalization (n : Node) :
    '\n' ∉ extractFunctionSignature n ∧
    '\t' ∉ extractFunctionSignature n ∧
    ¬ (str "  ") <:+: extractFunctionSignature n ∧
    (∀ c, (extractFunctionSignature n).head? = some c → isGoSpace c = false) ∧
    (∀ c, (extractFunctionSignature n).getLast? = some c → isGoSpace c = false) := by
  have main : ∀ s0 : List Char,
      '\n' ∉ goTrimSpace (collapseSpaces (replaceChar '\t' ' ' (replaceChar '\n' ' ' s0))) ∧
      '\t' ∉ goTrimSpace (collapseSpaces (replaceChar '\t' ' ' (replaceChar '\n' ' ' s0))) ∧
      ¬ (str "  ") <:+:
        goTrimSpace (collapseSpaces (replaceChar '\t' ' ' (replaceChar '\n' ' ' s0))) ∧
      (∀ c, (goTrimSpace (collapseSpaces (replaceChar '\t' ' '
          (replaceChar '\n' ' ' s0)))).head? = some c → isGoSpace c = false) ∧
      (∀ c, (goTrimSpace (collapseSpaces (replaceChar '\t' ' '
          (replaceChar '\n' ' ' s0)))).getLast? = some c → isGoSpace c = false) := by
    intro s0
    set s1 := replaceChar '\n' ' ' s0 with hs1
    set s2 := replaceChar '\t' ' ' s1 with hs2
    refine ⟨?_, ?_, ?_, ?_, ?_⟩
    · intro hmem
      have h3 := (goTrimSpace_within _).subset hmem
      rcases mem_collapseSpacesAux _ _ _ h3 with h2 | h2
      · rcases mem_replaceChar h2 with h1 | h1
        · exact absurd h1 (by decide)
        · exact notMem_replaceChar_self s0 (by decide) h1
      · exact absurd h2 (by decide)
    · intro hmem
      have h3 := (goTrimSpace_within _).subset hmem
      rcases mem_collapseSpacesAux _ _ _ h3 with h2 | h2
      · exact notMem_replaceChar_self s1 (by decide) h2
      · exact absurd h2 (by decide)
    · intro hinf
      have h3 : (str "  ") <:+: collapseSpaces s2 :=
        hinf.trans (goTrimSpace_within _)
      have h4 := collapse_no_double s2.length s2 (Nat.le_refl _)
      exact goContains_eq_false.mp h4 h3
    · intro c hc
      exact goTrimSpace_head _ c hc
    · intro c hc
      exact goTrimSpace_getLast _ c hc
  simpa only [extractFunctionSignature] using main (joinSpace
    ((match n.childByFieldName (str "type") with
      | some typeNode =>
        if !goContains (getNodeText typeNode) (str "(") then [getNodeText typeNode] else []
      | none => []) ++
     (match n.childByFieldName (str "declarator") with
      | some declaratorNode => [getNodeText declaratorNode]
      | none => [])))

/-- Witness for C8 at a signature whose pieces carry newline, tab and double
spaces. -/
theorem signatureCollapsedNormalization_witness :
    '\n' ∉ extractFunctionSignature c8Fn ∧
    '\t' ∉ extractFunctionSignature c8Fn ∧
    ¬ (str "  ") <:+: extractFunctionSignature c8Fn ∧
    (∀ c, (extractFunctionSignature c8Fn).head? = some c → isGoSpace c = false) ∧
    (∀ c, (extractFunctionSignature c8Fn).getLast? = some c → isGoSpace c = false) :=
  signatureCollapsedNormalization c8Fn

end OutlineVerif
